import Mathlib

/-!
Shallow embedding of the voice-chat conversation turn controller.

The model below translates, function by function, the TypeScript logic of the
voice-chat page component and its thinking patch:

- marker extraction of embedded reasoning (the processResponse helper),
- the SSE streaming loop of handleLLMResponse (line splitting, the data tag,
  the DONE sentinel, JSON frame decoding, per-delta message updates),
- the finalization phase (committing thinking and dispatching the clean text
  to the speech synthesizer),
- the interruption logic of the transcript handler (abort, synthesizer stop,
  pending-input overwrite) and the pending-input consumption of the finally
  block,
- the patched dual-channel accumulator that separates an explicit
  reasoning channel from answer content.

JavaScript strings are modelled as lists of characters.  The host JSON
decoder composed with the projection choices[0].delta.content is modelled as
an explicit function parameter of type Chars to Option Chars, where none
covers both a decode failure and an absent or empty content field; a concrete
test double, decodeChunk, recognizing the canonical OpenAI chunk shape, is
used for concrete evaluations.

Cancellation: the component runs on the JavaScript event loop, so the
transcript handler that requests cancellation can only run while the
streaming loop is suspended at an await, that is, between two reads of the
response body.  The streaming loop is therefore modelled with an optional
abort index: abortAt = some k means the request was aborted while the k-th
read was pending, making that read reject, as an aborted fetch body read
does.
-/

/-- JavaScript strings, modelled as lists of characters. -/
abbrev Chars := List Char

/-- Whitespace as recognized by the trim method of JavaScript strings
(restricted to the characters that can occur in this development). -/
def isJsSpace (c : Char) : Bool :=
  c = ' ' || c = '\t' || c = '\n' || c = '\r' || c = '\x0b' || c = '\x0c'

/-- Model of the trim method: remove leading and trailing whitespace. -/
def jsTrim (l : Chars) : Chars :=
  ((l.dropWhile isJsSpace).reverse.dropWhile isJsSpace).reverse

/-- Model of splitting a string on the newline character, as the split
method with separator newline does: the result is never empty, and
separators at the ends produce empty pieces. -/
def splitOnNl : Chars → List Chars
  | [] => [[]]
  | c :: cs =>
    match splitOnNl cs with
    | [] => [[]]
    | p :: ps => if c = '\n' then [] :: p :: ps else (c :: p) :: ps

/-- First index at which the pattern occurs in the text, starting the count
at the accumulator argument; models the indexOf method. -/
def idxOfAux (pat : Chars) : Chars → Nat → Option Nat
  | [], i => if pat.isPrefixOf [] then some i else none
  | c :: cs, i => if pat.isPrefixOf (c :: cs) then some i else idxOfAux pat cs (i + 1)

/-- Model of the indexOf method, as an optional index instead of minus one. -/
def idxOf? (pat text : Chars) : Option Nat := idxOfAux pat text 0

/-- The start marker of embedded thinking content. -/
def startMarker : Chars := "<think>".toList

/-- The end marker of embedded thinking content. -/
def endMarker : Chars := "</think>".toList

/-- Result of processResponse: the extracted thinking content, if any, and
the clean response text. -/
structure Processed where
  thinking : Option Chars
  cleanResponse : Chars
deriving DecidableEq, Repr

/-- Model of processResponse: look up the first occurrence of each marker in
the whole raw response; when both are present and the start marker comes
first, the thinking content is the trimmed text strictly between them and
the clean response is the trimmed concatenation of the text before the start
marker and the text after the end marker; otherwise the raw response is
returned unmodified with no thinking.  (When both lookups succeed with the
start strictly first, the end marker cannot overlap the start marker, so the
end index is at least the start index plus the start marker length.) -/
def processResponse (raw : Chars) : Processed :=
  match idxOf? startMarker raw, idxOf? endMarker raw with
  | some si, some ei =>
    if si < ei then
      ⟨some (jsTrim ((raw.drop (si + startMarker.length)).take (ei - (si + startMarker.length)))),
       jsTrim (raw.take si ++ raw.drop (ei + endMarker.length))⟩
    else ⟨none, raw⟩
  | _, _ => ⟨none, raw⟩

/-- Message roles of the conversation history. -/
inductive Role where
  | user
  | assistant
  | system
deriving DecidableEq, Repr

/-- A conversation message: role, content, and optional thinking content. -/
structure ChatMessage where
  role : Role
  content : Chars
  thinking : Option Chars
deriving DecidableEq, Repr

/-- Model of the streaming update of the latest message: when the history is
non-empty and its last message is an assistant message, that message gets the
given content; otherwise the history is unchanged. -/
def updateLastContent (msgs : List ChatMessage) (c : Chars) : List ChatMessage :=
  match msgs.getLast? with
  | some m => if m.role = Role.assistant then msgs.dropLast ++ [⟨m.role, c, m.thinking⟩] else msgs
  | none => msgs

/-- Model of the finalization update of the latest message: when the history
is non-empty and its last message is an assistant message, that message gets
the given thinking content; otherwise the history is unchanged. -/
def updateLastThinking (msgs : List ChatMessage) (t : Chars) : List ChatMessage :=
  match msgs.getLast? with
  | some m => if m.role = Role.assistant then msgs.dropLast ++ [⟨m.role, m.content, some t⟩] else msgs
  | none => msgs

/-- State of the streaming loop of handleLLMResponse: the message history,
the accumulated response (currentResponseRef), and the carried partial line
(the buffer variable). -/
structure StreamState where
  messages : List ChatMessage
  currentResponse : Chars
  buffer : Chars
deriving DecidableEq, Repr

/-- Applying one content delta: append it to the accumulated response and
write the new accumulated response into the latest assistant message. -/
def applyContent (st : StreamState) (c : Chars) : StreamState :=
  { st with
      currentResponse := st.currentResponse ++ c
      messages := updateLastContent st.messages (st.currentResponse ++ c) }

/-- The frame tag of a server-sent event data line. -/
def dataTag : Chars := "data: ".toList

/-- The terminal sentinel of the stream. -/
def doneSentinel : Chars := "[DONE]".toList

/-- Model of the body of the line loop of handleLLMResponse for one line:
trim the line, skip it when empty or not a data frame, stop the line loop on
the terminal sentinel, and otherwise decode the payload; a decode failure
(the catch branch) and an absent or empty content field both leave the state
unchanged.  The boolean is true when the terminal sentinel broke the loop. -/
def processLine (d : Chars → Option Chars) (st : StreamState) (line : Chars) :
    StreamState × Bool :=
  if jsTrim line = [] then (st, false)
  else if dataTag.isPrefixOf (jsTrim line) then
    if (jsTrim line).drop dataTag.length = doneSentinel then (st, true)
    else
      match d ((jsTrim line).drop dataTag.length) with
      | some c => if c = [] then (st, false) else (applyContent st c, false)
      | none => (st, false)
  else (st, false)

/-- Model of the line loop over the complete lines of one read chunk; the
terminal sentinel breaks out of this inner loop only. -/
def processLines (d : Chars → Option Chars) : StreamState → List Chars → StreamState
  | st, [] => st
  | st, l :: ls =>
    if (processLine d st l).2 then (processLine d st l).1
    else processLines d (processLine d st l).1 ls

/-- Model of the handling of one read chunk: append it to the carried
buffer, split on newlines, keep the trailing piece as the new buffer, and
run the line loop on the complete lines. -/
def processChunk (d : Chars → Option Chars) (st : StreamState) (chunk : Chars) : StreamState :=
  processLines d
    { st with buffer := ((splitOnNl (st.buffer ++ chunk)).getLast?).getD [] }
    ((splitOnNl (st.buffer ++ chunk)).dropLast)

/-- Model of the read loop of handleLLMResponse.  The chunk list is the
content the response body delivers before end of input.  abortAt = some k
means cancellation was requested while the k-th read was pending: that read
rejects, which the boolean result reports; reads complete in order before
it, and each completed read processes its whole chunk before the next
suspension, as the event loop runs the continuation to completion. -/
def streamLoop (d : Chars → Option Chars) :
    List Chars → Option Nat → StreamState → StreamState × Bool
  | _, some 0, st => (st, true)
  | [], _, st => (st, false)
  | c :: cs, ab, st => streamLoop d cs (ab.map fun n => n - 1) (processChunk d st c)

/-- The empty assistant message appended to the history before the request
is issued. -/
def assistantPlaceholder : ChatMessage := ⟨Role.assistant, [], none⟩

/-- Streaming state at the start of a turn: the history extended with the
assistant placeholder, an empty accumulated response, an empty buffer. -/
def initState (history : List ChatMessage) : StreamState :=
  ⟨history ++ [assistantPlaceholder], [], []⟩

/-- Observable outcome of one handleLLMResponse run: the message history,
the chunks handed to the speech synthesizer, and whether the run ended in
the catch branch after an abort. -/
structure RunResult where
  messages : List ChatMessage
  ttsCalls : List Chars
  aborted : Bool
deriving DecidableEq, Repr

/-- Model of the finalization phase: process the accumulated response, set
the thinking content of the latest assistant message when it is non-empty
(the truthiness test of the code), and hand the clean response to the
synthesizer exactly once when its trimmed form is non-empty.  The content of
the latest assistant message is not touched here: it keeps the raw
accumulated response. -/
def finalizeRun (st : StreamState) : RunResult :=
  ⟨(match (processResponse st.currentResponse).thinking with
    | some t => if t = [] then st.messages else updateLastThinking st.messages t
    | none => st.messages),
   (if jsTrim (processResponse st.currentResponse).cleanResponse = [] then []
    else [(processResponse st.currentResponse).cleanResponse]),
   false⟩

/-- Model of one handleLLMResponse run up to the catch branch: append the
assistant placeholder, consume the stream, and, unless a requested
cancellation made a read reject, run the finalization phase.  The pending
input handling of the finally block is modelled separately. -/
def handleRun (d : Chars → Option Chars) (history : List ChatMessage)
    (chunks : List Chars) (abortAt : Option Nat) : RunResult :=
  if (streamLoop d chunks abortAt (initState history)).2 then
    ⟨(streamLoop d chunks abortAt (initState history)).1.messages, [], true⟩
  else finalizeRun (streamLoop d chunks abortAt (initState history)).1

/-- The thinking content the finalization phase commits for a given raw
accumulated response. -/
def finalThinkingOf (raw : Chars) : Option Chars :=
  match (processResponse raw).thinking with
  | some t => if t = [] then none else some t
  | none => none

/-- The synthesizer chunks the finalization phase dispatches for a given raw
accumulated response. -/
def ttsCallsOf (raw : Chars) : List Chars :=
  if jsTrim (processResponse raw).cleanResponse = [] then []
  else [(processResponse raw).cleanResponse]

/-- Invariant of the streaming loop: the history is the caller history
followed by exactly one assistant message whose content mirrors the
accumulated response and whose thinking content is fixed. -/
def StreamInv (h : List ChatMessage) (th : Option Chars) (st : StreamState) : Prop :=
  st.messages = h ++ [⟨Role.assistant, st.currentResponse, th⟩]

/-- Controller-level state of the component: the message history, the
processing lock (isProcessingRef), the pending input slot
(pendingUserInputRef), counters of issued abort requests and synthesizer
stops, and the generation starts, split into direct calls of
handleLLMResponse and calls scheduled as deferred tasks through setTimeout.
While the lock is held an abort controller is installed, since the code
creates it right after taking the lock with no suspension in between, so the
optional-chaining abort call in the transcript handler always fires. -/
structure ControllerState where
  messages : List ChatMessage
  isProcessing : Bool
  pendingUserInput : Option Chars
  abortRequests : Nat
  ttsStopCalls : Nat
  immediateStarts : List Chars
  deferredStarts : List Chars
deriving DecidableEq, Repr

/-- Model of the transcript case of the worker message handler for a final
transcript: an empty trimmed text is ignored; while a turn is processing,
the in-flight request is aborted, synthesizer playback is stopped, and the
trimmed text overwrites the pending input slot, with no history append and
no generation start; otherwise the trimmed text is appended to the history
as a user message and a generation is started for it directly. -/
def onFinalTranscript (st : ControllerState) (text : Chars) : ControllerState :=
  if jsTrim text = [] then st
  else if st.isProcessing then
    { st with
        abortRequests := st.abortRequests + 1
        ttsStopCalls := st.ttsStopCalls + 1
        pendingUserInput := some (jsTrim text) }
  else
    { st with
        messages := st.messages ++ [⟨Role.user, jsTrim text, none⟩]
        immediateStarts := st.immediateStarts ++ [jsTrim text] }

/-- Model of the finally block of handleLLMResponse: release the processing
lock, and when a pending input is present, consume it, append it to the
history as a user message, and schedule a generation for it as a deferred
task through setTimeout rather than calling handleLLMResponse directly. -/
def handleFinally (st : ControllerState) : ControllerState :=
  match st.pendingUserInput with
  | some t =>
    { st with
        isProcessing := false
        pendingUserInput := none
        messages := st.messages ++ [⟨Role.user, t, none⟩]
        deferredStarts := st.deferredStarts ++ [t] }
  | none => { st with isProcessing := false }

/-- A delta event of the patched streaming handler: the content fragment and
the reasoning fragment of one decoded frame, the empty string standing for
an absent or empty field. -/
structure DeltaEvent where
  content : Chars
  reasoning : Chars
deriving DecidableEq, Repr

/-- Accumulator of the patched streaming handler: the accumulated content
(currentContentRef) and the accumulated reasoning (currentReasoningRef). -/
structure AccumState where
  content : Chars
  reasoning : Chars
deriving DecidableEq, Repr

/-- Accumulating one delta: append its content fragment and its reasoning
fragment to the respective accumulators. -/
def applyDelta (st : AccumState) (d : DeltaEvent) : AccumState :=
  ⟨st.content ++ d.content, st.reasoning ++ d.reasoning⟩

/-- Accumulator state after a sequence of deltas, starting empty. -/
def accumulate (ds : List DeltaEvent) : AccumState := ds.foldl applyDelta ⟨[], []⟩

/-- Model of the per-delta resolution of the patched streaming handler: a
delta with neither fragment is skipped with no resolve; otherwise, after
accumulating the delta, when this delta carries a reasoning fragment or the
accumulated reasoning is non-empty, the resolve is the accumulated reasoning
as thinking and the accumulated content verbatim as the clean response;
otherwise, when this delta carries content, the legacy marker extraction is
applied to the accumulated content.  The last branch mirrors the untouched
initializers of the code and is unreachable. -/
def stepResolve (st0 : AccumState) (d : DeltaEvent) :
    AccumState × Option (Option Chars × Chars) :=
  if d.content = [] ∧ d.reasoning = [] then (st0, none)
  else
    if d.reasoning ≠ [] ∨ (applyDelta st0 d).reasoning ≠ [] then
      (applyDelta st0 d,
       some (some (applyDelta st0 d).reasoning, (applyDelta st0 d).content))
    else if d.content ≠ [] then
      (applyDelta st0 d,
       some ((processResponse (applyDelta st0 d).content).thinking,
             (processResponse (applyDelta st0 d).content).cleanResponse))
    else (applyDelta st0 d, some (none, []))

/-- Model of the final resolution of the patched handler after the stream
completes: the thinking is the accumulated reasoning when non-empty, else
the marker extraction of the accumulated content when that is non-empty,
else nothing; the clean response is the accumulated content verbatim. -/
def resolveFinal (st : AccumState) : Option Chars × Chars :=
  (if st.reasoning ≠ [] then some st.reasoning
   else if st.content ≠ [] then (processResponse st.content).thinking
   else none,
   st.content)

/-- Model of the exported utility processResponseEnhanced of the patch: with
an explicit non-empty reasoning argument it returns the trimmed reasoning
and the trimmed raw response, otherwise it falls back to the legacy marker
extraction.  It is not on the streaming path of the patched handler. -/
def processResponseEnhanced (raw reasoning : Chars) : Processed :=
  if reasoning ≠ [] then ⟨some (jsTrim reasoning), jsTrim raw⟩
  else processResponse raw

/-- Opening text of the canonical OpenAI streaming chunk shape, up to the
content field value. -/
def payloadPreS : String := "\x7b\"choices\":[\x7b\"delta\":\x7b\"content\":\""

/-- Closing text of the canonical OpenAI streaming chunk shape, after the
content field value. -/
def payloadSufS : String := "\"\x7d\x7d]\x7d"

/-- Test double standing in for the host JSON decoder composed with the
projection choices[0].delta.content: it recognizes exactly the canonical
chunk shape and extracts the content field value; every other payload is a
decode failure or carries no content. -/
def decodeChunk (data : Chars) : Option Chars :=
  if payloadPreS.toList.isPrefixOf data then
    if payloadSufS.toList.isSuffixOf (data.drop payloadPreS.toList.length) then
      some ((data.drop payloadPreS.toList.length).take
        ((data.drop payloadPreS.toList.length).length - payloadSufS.toList.length))
    else none
  else none

/-- A full data line carrying the given content fragment. -/
def mkLine (c : String) : String := "data: " ++ payloadPreS ++ c ++ payloadSufS

/-- A full data line carrying the given content fragment, newline ended. -/
def mkFrame (c : String) : String := mkLine c ++ "\n"

/-- The read chunk of the end-to-end scenario of the spec: two content
deltas and the terminal sentinel. -/
def scenarioChunk : Chars := (mkFrame ( "Sun") ++ mkFrame ( "ny today.") ++ "data: [DONE]\n").toList

/-- A concrete busy controller state with a stale pending value. -/
def busyState : ControllerState :=
  ⟨[⟨Role.user, "hi".toList, none⟩], true, some ( "old".toList), 0, 0, [], []⟩

/-- A read chunk carrying one content delta. -/
def chunkHel : Chars := (mkFrame ( "Hel")).toList

/-- A second read chunk carrying one content delta. -/
def chunkLo : Chars := (mkFrame ( "lo")).toList

/-- C3 (amended): for an accumulated answer with no explicit reasoning
fragment, when the first occurrence of the start marker exists, the first
occurrence of the end marker in the whole string exists, and the start comes
strictly first (so no end marker precedes the start marker), processResponse
returns as thinking the trimmed substring strictly between the markers and
as clean the trimmed concatenation of the text before the start marker and
the text after the end marker. -/
theorem processResponse_extracts_markers (raw : Chars) (si ei : Nat)
    (hs : idxOf? startMarker raw = some si)
    (he : idxOf? endMarker raw = some ei)
    (hlt : si < ei) :
    processResponse raw =
      ⟨some (jsTrim ((raw.drop (si + startMarker.length)).take (ei - (si + startMarker.length)))),
       jsTrim (raw.take si ++ raw.drop (ei + endMarker.length))⟩ := by
  unfold processResponse
  rw [hs, he]
  simp [hlt]

/-- C3 (counterexample): in a string where the first start marker exists and
an end marker occurs after it, but another end marker precedes the start
marker, processResponse extracts nothing, while the claim requires the
substring between the markers. -/
theorem processResponse_extracts_markers_cex :
    idxOf? startMarker ( "</think><think>y</think>".toList) = some 8 ∧
    idxOf? endMarker (( "</think><think>y</think>".toList).drop (8 + startMarker.length)) = some 1 ∧
    processResponse ( "</think><think>y</think>".toList) =
      ⟨none, "</think><think>y</think>".toList⟩ ∧
    (processResponse ( "</think><think>y</think>".toList)).thinking ≠ some ( "y".toList) := by
  decide

/-- C3 (witness): the spec example, through the amended theorem. -/
theorem processResponse_extracts_markers_witness :
    idxOf? startMarker ( "before<think>middle</think>after".toList) = some 6 ∧
    idxOf? endMarker ( "before<think>middle</think>after".toList) = some 19 ∧
    processResponse ( "before<think>middle</think>after".toList) =
      ⟨some ( "middle".toList), "beforeafter".toList⟩ := by
  refine ⟨by decide, by decide, ?_⟩
  have h := processResponse_extracts_markers ( "before<think>middle</think>after".toList)
    6 19 (by decide) (by decide) (by decide)
  rw [h]
  decide

/-- C9: when the markers are absent, or only one of them occurs, or the
first end marker comes before the first start marker, processResponse
returns no thinking and the raw answer unmodified. -/
theorem processResponse_passthrough (raw : Chars)
    (h : idxOf? startMarker raw = none ∨ idxOf? endMarker raw = none ∨
         ∃ si ei, idxOf? startMarker raw = some si ∧ idxOf? endMarker raw = some ei ∧ ei < si) :
    processResponse raw = ⟨none, raw⟩ := by
  unfold processResponse
  cases hs : idxOf? startMarker raw with
  | none => simp
  | some si =>
    cases he : idxOf? endMarker raw with
    | none => simp
    | some ei =>
      rcases h with h | h | ⟨si2, ei2, hs2, he2, hlt⟩
      · exact absurd (hs.symm.trans h) (by simp)
      · exact absurd (he.symm.trans h) (by simp)
      · rw [hs] at hs2
        rw [he] at he2
        have : ¬ si < ei := by
          have h1 := Option.some_inj.mp hs2
          have h2 := Option.some_inj.mp he2
          omega
        simp [this]

/-- C9 (witness): the spec example, through the theorem. -/
theorem processResponse_passthrough_witness :
    processResponse ( "no markers here".toList) = ⟨none, "no markers here".toList⟩ :=
  processResponse_passthrough ( "no markers here".toList) (Or.inl (by decide))

/-- C2: a final transcript with non-empty trimmed text arriving while a turn
is processing aborts the in-flight request, stops synthesizer playback, and
records the trimmed text as the sole pending input, overwriting any prior
pending value; the history is not extended and no generation is started,
directly or deferred. -/
theorem interrupt_overwrites_pending (st : ControllerState) (text : Chars)
    (hp : st.isProcessing = true) (ht : jsTrim text ≠ []) :
    (onFinalTranscript st text).pendingUserInput = some (jsTrim text) ∧
    (onFinalTranscript st text).messages = st.messages ∧
    (onFinalTranscript st text).immediateStarts = st.immediateStarts ∧
    (onFinalTranscript st text).deferredStarts = st.deferredStarts ∧
    (onFinalTranscript st text).abortRequests = st.abortRequests + 1 ∧
    (onFinalTranscript st text).ttsStopCalls = st.ttsStopCalls + 1 := by
  unfold onFinalTranscript
  simp [ht, hp]

/-- C2 (witness): a concrete interruption overwriting a stale pending input,
through the theorem. -/
theorem interrupt_overwrites_pending_witness :
    (onFinalTranscript busyState ( "B".toList)).pendingUserInput = some (jsTrim ( "B".toList)) ∧
    (onFinalTranscript busyState ( "B".toList)).messages = busyState.messages :=
  ⟨(interrupt_overwrites_pending busyState ( "B".toList) rfl (by decide)).1,
   (interrupt_overwrites_pending busyState ( "B".toList) rfl (by decide)).2.1⟩

/-- C6: when the turn ends with a pending input set, the finally block
consumes it exactly once, clearing the slot, appends it to the history as a
user message, and schedules the follow-up generation as a deferred task,
with no direct recursive start. -/
theorem finally_consumes_pending (st : ControllerState) (t : Chars)
    (hp : st.pendingUserInput = some t) :
    (handleFinally st).pendingUserInput = none ∧
    (handleFinally st).messages = st.messages ++ [⟨Role.user, t, none⟩] ∧
    (handleFinally st).deferredStarts = st.deferredStarts ++ [t] ∧
    (handleFinally st).immediateStarts = st.immediateStarts ∧
    (handleFinally st).isProcessing = false := by
  unfold handleFinally
  rw [hp]
  simp

/-- C6 (witness): the busy state after an interruption recorded B as
pending; the finally block consumes it, through the theorem. -/
theorem finally_consumes_pending_witness :
    (handleFinally (onFinalTranscript busyState ( "B".toList))).pendingUserInput = none ∧
    (handleFinally (onFinalTranscript busyState ( "B".toList))).messages =
      (onFinalTranscript busyState ( "B".toList)).messages ++ [⟨Role.user, "B".toList, none⟩] ∧
    (handleFinally (onFinalTranscript busyState ( "B".toList))).deferredStarts =
      (onFinalTranscript busyState ( "B".toList)).deferredStarts ++ [ "B".toList] := by
  have h := finally_consumes_pending (onFinalTranscript busyState ( "B".toList))
    ( "B".toList) (by decide)
  exact ⟨h.1, h.2.1, h.2.2.1⟩

/-- A list with a non-empty left part appends to a non-empty list. -/
theorem append_ne_nil_left (l r : Chars) (h : l ≠ []) : l ++ r ≠ [] := by
  intro h0
  exact h (List.append_eq_nil.mp h0).1

/-- A list with a non-empty right part appends to a non-empty list. -/
theorem append_ne_nil_right (l r : Chars) (h : r ≠ []) : l ++ r ≠ [] := by
  intro h0
  exact h (List.append_eq_nil.mp h0).2

/-- The accumulated reasoning never becomes empty again once non-empty. -/
theorem reasoning_foldl_ne :
    ∀ (ds : List DeltaEvent) (st : AccumState), st.reasoning ≠ [] →
      (ds.foldl applyDelta st).reasoning ≠ [] := by
  intro ds
  induction ds with
  | nil => intro st h; exact h
  | cons d ds ih =>
    intro st h
    exact ih (applyDelta st d) (append_ne_nil_left _ _ h)

/-- After a delta carrying a non-empty reasoning fragment, the accumulated
reasoning is non-empty for the rest of the turn. -/
theorem reasoning_accum_ne (ds₁ ds₂ : List DeltaEvent) (d : DeltaEvent)
    (hd : d.reasoning ≠ []) :
    (accumulate (ds₁ ++ d :: ds₂)).reasoning ≠ [] := by
  unfold accumulate
  rw [List.foldl_append]
  exact reasoning_foldl_ne ds₂ _ (append_ne_nil_right _ _ hd)

/-- C4: once any delta of the turn carries a non-empty reasoning fragment,
every later per-delta resolve of the patched handler returns the accumulated
reasoning as thinking and the accumulated content verbatim as the clean
response, for arbitrary further deltas, including content that contains
marker-like substrings, and the final resolve after the stream completes
does the same; marker extraction is never applied again for the life of the
turn. -/
theorem explicit_reasoning_sticky (ds₁ ds₂ : List DeltaEvent) (d d2 : DeltaEvent)
    (hd : d.reasoning ≠ []) :
    (d2.content ≠ [] ∨ d2.reasoning ≠ [] →
      stepResolve (accumulate (ds₁ ++ d :: ds₂)) d2 =
        (applyDelta (accumulate (ds₁ ++ d :: ds₂)) d2,
         some (some (applyDelta (accumulate (ds₁ ++ d :: ds₂)) d2).reasoning,
               (applyDelta (accumulate (ds₁ ++ d :: ds₂)) d2).content))) ∧
    resolveFinal (accumulate (ds₁ ++ d :: ds₂)) =
      (some (accumulate (ds₁ ++ d :: ds₂)).reasoning,
       (accumulate (ds₁ ++ d :: ds₂)).content) := by
  have hne := reasoning_accum_ne ds₁ ds₂ d hd
  constructor
  · intro hd2
    unfold stepResolve
    rw [if_neg (by rcases hd2 with h | h <;> exact fun hc => h (by simp [hc.1, hc.2]))]
    have hcond : d2.reasoning ≠ [] ∨ (applyDelta (accumulate (ds₁ ++ d :: ds₂)) d2).reasoning ≠ [] :=
      Or.inr (append_ne_nil_left _ _ hne)
    rw [if_pos hcond]
  · unfold resolveFinal
    rw [if_pos hne]

/-- C4 (witness): after an explicit reasoning delta, a later content delta
consisting of a complete marker section still resolves to the verbatim
accumulated content, through the theorem. -/
theorem explicit_reasoning_sticky_witness :
    (⟨[], "why".toList⟩ : DeltaEvent).reasoning ≠ [] ∧
    stepResolve (accumulate [⟨[], "why".toList⟩]) ⟨ "<think>x</think>".toList, []⟩ =
      (⟨ "<think>x</think>".toList, "why".toList⟩,
       some (some ( "why".toList), "<think>x</think>".toList)) := by
  refine ⟨by decide, ?_⟩
  have h := (explicit_reasoning_sticky [] [] ⟨[], "why".toList⟩
    ⟨ "<think>x</think>".toList, []⟩ (by decide)).1 (Or.inl (by decide))
  rw [List.nil_append] at h
  rw [h]
  decide

/-- A pending read rejects as soon as cancellation is requested. -/
theorem streamLoop_abort_now (d : Chars → Option Chars) (chunks : List Chars)
    (st : StreamState) : streamLoop d chunks (some 0) st = (st, true) := by
  cases chunks <;> rfl

/-- With no cancellation the read loop never reports an abort. -/
theorem streamLoop_none_snd (d : Chars → Option Chars) :
    ∀ (chunks : List Chars) (st : StreamState),
      (streamLoop d chunks none st).2 = false := by
  intro chunks
  induction chunks with
  | nil => intro st; rfl
  | cons c cs ih => intro st; exact ih (processChunk d st c)

/-- A run cancelled while the read after the first k chunks was pending is
the uncancelled run of the first k chunks, reported as aborted. -/
theorem streamLoop_abort_take (d : Chars → Option Chars) :
    ∀ (chunks : List Chars) (k : Nat) (st : StreamState), k ≤ chunks.length →
      streamLoop d chunks (some k) st =
        ((streamLoop d (chunks.take k) none st).1, true) := by
  intro chunks
  induction chunks with
  | nil =>
    intro k st hk
    have hk0 : k = 0 := Nat.le_zero.mp hk
    subst hk0
    rfl
  | cons c cs ih =>
    intro k st hk
    cases k with
    | zero => rfl
    | succ n => exact ih n (processChunk d st c) (Nat.le_of_succ_le_succ hk)

/-- Writing fresh content into a history that ends in an assistant message
replaces the content of that last message. -/
theorem updateLastContent_concat (h : List ChatMessage) (c0 c : Chars) (th : Option Chars) :
    updateLastContent (h ++ [⟨Role.assistant, c0, th⟩]) c =
      h ++ [⟨Role.assistant, c, th⟩] := by
  unfold updateLastContent
  rw [List.getLast?_concat]
  simp [List.dropLast_concat]

/-- Writing thinking content into a history that ends in an assistant
message replaces the thinking of that last message. -/
theorem updateLastThinking_concat (h : List ChatMessage) (c0 : Chars) (th : Option Chars)
    (t : Chars) :
    updateLastThinking (h ++ [⟨Role.assistant, c0, th⟩]) t =
      h ++ [⟨Role.assistant, c0, some t⟩] := by
  unfold updateLastThinking
  rw [List.getLast?_concat]
  simp [List.dropLast_concat]

/-- Applying a content delta preserves the streaming invariant. -/
theorem applyContent_inv (h : List ChatMessage) (th : Option Chars)
    (st : StreamState) (c : Chars) (hm : StreamInv h th st) :
    StreamInv h th (applyContent st c) := by
  unfold StreamInv applyContent at *
  rw [hm, updateLastContent_concat]

/-- One line either leaves the state unchanged or applies a content delta. -/
theorem processLine_cases (d : Chars → Option Chars) (st : StreamState) (l : Chars) :
    (processLine d st l).1 = st ∨ ∃ c, (processLine d st l).1 = applyContent st c := by
  unfold processLine
  split
  · exact Or.inl rfl
  · split
    · split
      · exact Or.inl rfl
      · split
        · split
          · exact Or.inl rfl
          · exact Or.inr ⟨_, rfl⟩
        · exact Or.inl rfl
    · exact Or.inl rfl

/-- One line of the line loop preserves the streaming invariant. -/
theorem processLine_inv (d : Chars → Option Chars) (st : StreamState) (l : Chars)
    (h : List ChatMessage) (th : Option Chars) (hm : StreamInv h th st) :
    StreamInv h th (processLine d st l).1 := by
  rcases processLine_cases d st l with hc | ⟨c, hc⟩
  · rw [hc]; exact hm
  · rw [hc]; exact applyContent_inv h th st c hm

/-- The line loop preserves the streaming invariant. -/
theorem processLines_inv (d : Chars → Option Chars) (h : List ChatMessage)
    (th : Option Chars) :
    ∀ (ls : List Chars) (st : StreamState), StreamInv h th st →
      StreamInv h th (processLines d st ls) := by
  intro ls
  induction ls with
  | nil => intro st hm; exact hm
  | cons l ls ih =>
    intro st hm
    show StreamInv h th (processLines d st (l :: ls))
    unfold processLines
    split
    · exact processLine_inv d st l h th hm
    · exact ih (processLine d st l).1 (processLine_inv d st l h th hm)

/-- Handling one read chunk preserves the streaming invariant. -/
theorem processChunk_inv (d : Chars → Option Chars) (h : List ChatMessage)
    (th : Option Chars) (st : StreamState) (c : Chars) (hm : StreamInv h th st) :
    StreamInv h th (processChunk d st c) := by
  unfold processChunk
  exact processLines_inv d h th _ _ hm

/-- The whole read loop preserves the streaming invariant, cancelled or
not. -/
theorem streamLoop_inv (d : Chars → Option Chars) (h : List ChatMessage)
    (th : Option Chars) :
    ∀ (chunks : List Chars) (ab : Option Nat) (st : StreamState), StreamInv h th st →
      StreamInv h th (streamLoop d chunks ab st).1 := by
  intro chunks
  induction chunks with
  | nil =>
    intro ab st hm
    cases ab with
    | none => exact hm
    | some k => cases k with
      | zero => exact hm
      | succ n => exact hm
  | cons c cs ih =>
    intro ab st hm
    cases ab with
    | none => exact ih none (processChunk d st c) (processChunk_inv d h th st c hm)
    | some k => cases k with
      | zero => exact hm
      | succ n => exact ih (some n) (processChunk d st c) (processChunk_inv d h th st c hm)

/-- The initial streaming state satisfies the invariant with the placeholder
content and no thinking. -/
theorem initState_inv (history : List ChatMessage) :
    StreamInv history none (initState history) := rfl

/-- The finalization phase on a state satisfying the invariant with no
thinking yet: the content of the assistant message stays the raw accumulated
response, the thinking commits exactly when non-empty, and the synthesizer
receives the clean response exactly once when its trimmed form is
non-empty. -/
theorem finalizeRun_shape (h : List ChatMessage) (st : StreamState)
    (hm : StreamInv h none st) :
    finalizeRun st =
      ⟨h ++ [⟨Role.assistant, st.currentResponse, finalThinkingOf st.currentResponse⟩],
       ttsCallsOf st.currentResponse, false⟩ := by
  unfold StreamInv at hm
  unfold finalizeRun finalThinkingOf ttsCallsOf
  cases hpt : (processResponse st.currentResponse).thinking with
  | none => rw [hm]
  | some t =>
    by_cases ht : t = []
    · simp [ht, hm]
    · simp [ht, hm, updateLastThinking_concat]

/-- C1: once cancellation of the turn is requested, no delta is ever applied
to the assistant message of that turn: the history the run leaves behind,
content and thinking fields included, is exactly the history at the instant
cancellation was requested, that is, after the chunks whose reads completed
before the abort; at that instant every line read so far has already been
applied, since the handler that requests cancellation can only run while the
streaming loop is suspended, and the rejected read ends the stream before
the finalization phase. -/
theorem cancellation_freezes_message (d : Chars → Option Chars)
    (history : List ChatMessage) (chunks : List Chars) (k : Nat)
    (hk : k ≤ chunks.length) :
    (handleRun d history chunks (some k)).messages =
      ((streamLoop d (chunks.take k) none (initState history)).1).messages := by
  unfold handleRun
  rw [streamLoop_abort_take d chunks k (initState history) hk]
  rfl

/-- C1 (witness): cancelling between the two reads freezes the assistant
message at the first delta, through the theorem. -/
theorem cancellation_freezes_message_witness :
    1 ≤ ([chunkHel, chunkLo] : List Chars).length ∧
    (handleRun decodeChunk [] [chunkHel, chunkLo] (some 1)).messages =
      ((streamLoop decodeChunk ([chunkHel, chunkLo].take 1) none (initState [])).1).messages :=
  ⟨by decide, cancellation_freezes_message decodeChunk [] [chunkHel, chunkLo] 1 (by decide)⟩

/-- C5 (amended): when the stream is exhausted with no cancellation, the
finalization phase resolves the accumulated response once more and commits
the extracted thinking, when non-empty, to the assistant message, whose
content keeps the raw accumulated response (it is not replaced by the clean
text, so the two agree exactly when no marker section is present); the clean
response is handed to the synthesizer exactly once when its trimmed form is
non-empty and otherwise the synthesizer is not invoked; in the no-reasoning
scenario of the spec the assistant message content becomes the concatenation
of the two deltas with no thinking and the synthesizer receives exactly that
one chunk. -/
theorem finalize_commits (d : Chars → Option Chars) (history : List ChatMessage)
    (chunks : List Chars) :
    (handleRun d history chunks none).messages =
      history ++ [⟨Role.assistant,
        ((streamLoop d chunks none (initState history)).1).currentResponse,
        finalThinkingOf (((streamLoop d chunks none (initState history)).1).currentResponse)⟩] ∧
    (handleRun d history chunks none).ttsCalls =
      ttsCallsOf (((streamLoop d chunks none (initState history)).1).currentResponse) ∧
    handleRun decodeChunk [] [scenarioChunk] none =
      ⟨[⟨Role.assistant, "Sunny today.".toList, none⟩], [ "Sunny today.".toList], false⟩ := by
  have hInv : StreamInv history none ((streamLoop d chunks none (initState history)).1) :=
    streamLoop_inv d history none chunks none (initState history) (initState_inv history)
  have hfin := finalizeRun_shape history _ hInv
  have hsnd := streamLoop_none_snd d chunks (initState history)
  refine ⟨?_, ?_, by decide⟩
  · unfold handleRun
    rw [hsnd]
    simp only [Bool.false_eq_true, if_false]
    rw [hfin]
  · unfold handleRun
    rw [hsnd]
    simp only [Bool.false_eq_true, if_false]
    rw [hfin]

/-- C5 (counterexample): three divergences of the finalization phase from
the claim, each at a concrete input.  First, a response with a marker
section keeps the markers in the committed assistant message content, which
therefore differs from the clean text handed to the synthesizer, while the
claim requires the content to equal the clean text.  Second, a response of a
single space yields a non-empty clean text, yet the synthesizer is not
invoked, because dispatch is gated on the trimmed clean text, while the
claim requires a dispatch whenever the clean text is non-empty.  Third, a
response whose marker section trims to nothing resolves to an empty
thinking, which is not committed, leaving the thinking field null, while the
claim requires the final thinking to be committed. -/
theorem finalize_commits_cex :
    ((handleRun decodeChunk [] [(mkFrame ( "<think>a</think>b")).toList] none).messages =
       [⟨Role.assistant, "<think>a</think>b".toList, some ( "a".toList)⟩] ∧
     (handleRun decodeChunk [] [(mkFrame ( "<think>a</think>b")).toList] none).ttsCalls =
       [ "b".toList] ∧
     (processResponse ( "<think>a</think>b".toList)).cleanResponse = "b".toList ∧
     ( "<think>a</think>b".toList : Chars) ≠ ( "b".toList : Chars)) ∧
    ((handleRun decodeChunk [] [(mkFrame ( " ")).toList] none).messages =
       [⟨Role.assistant, " ".toList, none⟩] ∧
     (processResponse ( " ".toList)).cleanResponse = " ".toList ∧
     ( " ".toList : Chars) ≠ ([] : Chars) ∧
     (handleRun decodeChunk [] [(mkFrame ( " ")).toList] none).ttsCalls = []) ∧
    ((processResponse ( "<think> </think>x".toList)).thinking = some ([] : Chars) ∧
     (handleRun decodeChunk [] [(mkFrame ( "<think> </think>x")).toList] none).messages =
       [⟨Role.assistant, "<think> </think>x".toList, none⟩]) := by
  decide

/-- Unfolding equation of the line loop on a first line. -/
theorem processLines_cons (d : Chars → Option Chars) (st : StreamState)
    (l : Chars) (ls : List Chars) :
    processLines d st (l :: ls) =
      if (processLine d st l).2 then (processLine d st l).1
      else processLines d (processLine d st l).1 ls := rfl

/-- C7: a data frame whose payload fails to decode is skipped without
halting consumption or raising an error: the line loop over any lines with
the malformed frame inserted equals the line loop over the same lines
without it, so every subsequent well-formed delta is still applied. -/
theorem malformed_frame_skipped (d : Chars → Option Chars) (st : StreamState)
    (xs ys : List Chars) (bad : Chars)
    (h1 : dataTag.isPrefixOf (jsTrim bad) = true)
    (h2 : (jsTrim bad).drop dataTag.length ≠ doneSentinel)
    (h3 : d ((jsTrim bad).drop dataTag.length) = none) :
    processLines d st (xs ++ bad :: ys) = processLines d st (xs ++ ys) := by
  have ht : jsTrim bad ≠ [] := by
    intro h0
    rw [h0] at h1
    exact absurd h1 (by decide)
  have hbad : ∀ st0 : StreamState, processLine d st0 bad = (st0, false) := by
    intro st0
    unfold processLine
    rw [if_neg ht, if_pos h1, if_neg h2, h3]
  induction xs generalizing st with
  | nil =>
    show processLines d st (bad :: ys) = processLines d st ys
    rw [processLines_cons, hbad st]
    rfl
  | cons x xs ih =>
    show processLines d st (x :: (xs ++ bad :: ys)) = processLines d st (x :: (xs ++ ys))
    rw [processLines_cons, processLines_cons]
    by_cases hx : (processLine d st x).2 = true
    · rw [if_pos hx, if_pos hx]
    · rw [if_neg hx, if_neg hx]
      exact ih (processLine d st x).1

/-- C7 (witness): a malformed frame between two well-formed frames, through
the theorem. -/
theorem malformed_frame_skipped_witness :
    decodeChunk ( "\x7boops".toList) = none ∧
    processLines decodeChunk (initState []) [(mkLine ( "A")).toList, "data: \x7boops".toList, (mkLine ( "B")).toList] =
      processLines decodeChunk (initState []) [(mkLine ( "A")).toList, (mkLine ( "B")).toList] :=
  ⟨by decide,
   malformed_frame_skipped decodeChunk (initState []) [(mkLine ( "A")).toList]
     [(mkLine ( "B")).toList] ( "data: \x7boops".toList) (by decide) (by decide) (by decide)⟩

/-- C8: the terminal sentinel stops the line loop of its own chunk, but the
break does not leave the read loop, so a delta in a chunk read after the
sentinel is still applied to the assistant message, contradicting the claim
that the sentinel terminates the delta sequence. -/
theorem done_sentinel_not_terminal :
    (handleRun decodeChunk [] [ "data: [DONE]\n".toList, (mkFrame ( "X")).toList] none).messages =
      [⟨Role.assistant, "X".toList, none⟩] ∧
    (handleRun decodeChunk [] [( "data: [DONE]\n" ++ mkFrame ( "X")).toList] none).messages =
      [⟨Role.assistant, [], none⟩] := by
  decide

/-- C10: the assistant placeholder appended at the start of the turn is
never removed: a run aborted while the first read was pending, before any
delta was applied, leaves the history extended by an assistant message with
empty content and no thinking, and every run, whatever its chunks and
cancellation, leaves the history extended by exactly one assistant
message. -/
theorem placeholder_append_only (d : Chars → Option Chars)
    (history : List ChatMessage) (chunks : List Chars) :
    (handleRun d history chunks (some 0)).messages = history ++ [assistantPlaceholder] ∧
    ∀ ab : Option Nat, ∃ c th, (handleRun d history chunks ab).messages =
      history ++ [⟨Role.assistant, c, th⟩] := by
  constructor
  · unfold handleRun
    rw [streamLoop_abort_now]
    rfl
  · intro ab
    have hInv : StreamInv history none ((streamLoop d chunks ab (initState history)).1) :=
      streamLoop_inv d history none chunks ab (initState history) (initState_inv history)
    unfold handleRun
    cases hb : (streamLoop d chunks ab (initState history)).2 with
    | true =>
      simp only [if_true]
      exact ⟨_, none, hInv⟩
    | false =>
      simp only [Bool.false_eq_true, if_false]
      rw [finalizeRun_shape history _ hInv]
      exact ⟨_, _, rfl⟩
